import Mathlib

/-!
# Verification of the NewsRetrievalEngine retrieval core

Shallow embedding of `src/searcher.py` (the BM25 and query-likelihood-model
search entry points) together with the ranking functions they call.
The ranking module (`ranker.py`) and the data-type declarations
(`doctypes.py`) are not part of the sources under verification, so those
parts are modelled from the specification (`spec.md`); each such definition
carries a doc comment starting with `Modelled from the spec:`.

Conventions of the embedding:
* Python floats are modelled by exact rationals (`ℚ`).  The natural
  logarithm as computed on floats is passed in as an explicit function
  parameter `log : ℚ → ℚ` where a score formula needs it.
* Log-domain ("normalized") probability scores are represented by the
  underlying probability itself rather than by its (irrational) logarithm:
  `log` is strictly monotone and injective on positive rationals, so
  equalities, comparisons and the sort order of log-domain scores are
  exactly those of the represented probabilities, and the `log 0` domain
  error is modelled explicitly by an error value.
* `dict`, `set` construction/lookup and list slicing are modelled by the
  explicit functions `dictInsert`/`buildDict`/`assocLookup`, `pyDedup` and
  `pySlice` below, mirroring CPython semantics (a `set` of document ids is
  iterated in an implementation-defined order; it is modelled here as
  first-encounter order, and no verified property depends on that order).
-/

namespace NewsRetrieval

/-- Modelled from the spec: `doctypes.py` (the `TokenizedDocument` class) is
not among the sources; per §3 a tokenized document is an identifier with
ordered title and body token sequences.  `searcher.py` accesses the fields
as `doc.id`, `doc.title`, `doc.content`. -/
structure TokenizedDocument where
  id : Nat
  title : List String
  content : List String

/-- Modelled from the spec: `doctypes.py` (the `LanguageModel` class) is not
among the sources; per §3 a language model is an identifier (a document id,
or a sentinel `None` for the collection model), a token→count multiset, a
total-token count and a member count.  The counter is embedded as a total
function defaulting to 0, exactly the behaviour of a Python `Counter`. -/
structure LanguageModel where
  id : Option Nat
  counter : String → Nat
  total : Nat
  count : Nat

/-- Failure modes that the embedded operations can surface: a Python
`KeyError` from a missing dictionary key, and the domain error mandated by
the spec for a log of a zero probability. -/
inductive SearchError where
  | keyError : SearchError
  | domainError : SearchError
deriving DecidableEq

/-- Python `dict` assignment `d[k] = v`: replace the value in place if the
key is present (keeping its position), otherwise append the binding. -/
def dictInsert {κ ν : Type} [DecidableEq κ] (k : κ) (v : ν) :
    List (κ × ν) → List (κ × ν)
  | [] => [(k, v)]
  | p :: rest => if p.1 = k then (k, v) :: rest else p :: dictInsert k v rest

/-- Build a Python `dict` from a sequence of key-value pairs in order
(later bindings overwrite earlier ones; insertion order is preserved). -/
def buildDict {κ ν : Type} [DecidableEq κ] (l : List (κ × ν)) : List (κ × ν) :=
  l.foldl (fun acc p => dictInsert p.1 p.2 acc) []

/-- Lookup in an association list (first matching key). -/
def assocLookup {κ ν : Type} [DecidableEq κ] (l : List (κ × ν)) (k : κ) :
    Option ν :=
  (l.find? (fun p => p.1 = k)).map (·.2)

/-- Duplicate removal keeping the first occurrence of each element.  Models
the conversion of a generated sequence to a Python `set` and the subsequent
iteration over it (whose order is implementation-defined; no verified
property depends on the order chosen here). -/
def pyDedup {α : Type} [DecidableEq α] : List α → List α
  | [] => []
  | x :: xs => x :: (pyDedup xs).filter (fun a => a ≠ x)

/-- Python list slicing `l[:k]` with an optional bound, as applied to
`topk` in `searcher.py`: `None` returns the whole list, a non-negative `k`
returns the first `k` elements, and a negative `k` drops the last `-k`
elements (CPython semantics for a negative stop index). -/
def pySlice {α : Type} (l : List α) : Option Int → List α
  | none => l
  | some k => if 0 ≤ k then l.take k.toNat else l.take (l.length - (-k).toNat)

/-- The comparison used by both rankers: pair `x` may precede pair `y`
exactly when `x`'s score is at least `y`'s. -/
def scoreGe {α : Type} (x y : α × ℚ) : Prop := y.2 ≤ x.2

instance {α : Type} : DecidableRel (@scoreGe α) :=
  fun x y => inferInstanceAs (Decidable (y.2 ≤ x.2))

instance {α : Type} : IsTotal (α × ℚ) scoreGe :=
  ⟨fun x y => le_total y.2 x.2⟩

instance {α : Type} : IsTrans (α × ℚ) scoreGe :=
  ⟨fun _ _ _ h h' => le_trans h' h⟩

/-- Python `sorted(pairs, key=lambda kv: kv[1], reverse=True)`: a stable
sort placing higher scores first.  For a total preorder the stable-sorted
arrangement is unique, so the insertion sort used here returns exactly the
list CPython's stable sort returns. -/
def rankDesc {α : Type} (l : List (α × ℚ)) : List (α × ℚ) :=
  l.insertionSort scoreGe

/-- Effectful map over a list in the `Except` monad, stopping at the first
error: the behaviour of a Python loop whose body may raise. -/
def mapExcept {ε α β : Type} (f : α → Except ε β) : List α → Except ε (List β)
  | [] => .ok []
  | x :: xs =>
    match f x, mapExcept f xs with
    | .error e, _ => .error e
    | .ok _, .error e => .error e
    | .ok y, .ok ys => .ok (y :: ys)

/-! ## The BM25 ranking algorithm

`ranker.py` is not among the sources under verification; the functions in
this section are modelled from the specification, §4.3. -/

/-- A document's combined title+body token sequence (spec §4.3 step 1). -/
def docTokens (d : TokenizedDocument) : List String :=
  d.title ++ d.content

/-- Modelled from the spec: `ranker.py` (`calculate_tf`) is absent; per
§4.3 step 1, the term frequency is the count of the token in the
document's combined title+body tokens. -/
def calculate_tf (t : String) (d : TokenizedDocument) : Nat :=
  (docTokens d).count t

/-- Modelled from the spec: `ranker.py` (`calculate_df`) is absent; per
§4.3 step 2, the document frequency is the number of candidate documents
containing the token at least once. -/
def calculate_df (t : String) (docs : List TokenizedDocument) : Nat :=
  (docs.filter (fun d => t ∈ docTokens d)).length

/-- Modelled from the spec: `ranker.py` (`calculate_idf`) is absent; per
§4.3 step 3, `idf(t) = ln (N / df t)` with a defensive fallback of 0 when
`df t = 0`.  The float logarithm is the parameter `log`. -/
def calculate_idf (log : ℚ → ℚ) (t : String) (docs : List TokenizedDocument) : ℚ :=
  let df := calculate_df t docs
  if df = 0 then 0 else log ((docs.length : ℚ) / (df : ℚ))

/-- A document's length: its total token count (spec §4.3 step 4). -/
def docLength (d : TokenizedDocument) : Nat :=
  (docTokens d).length

/-- Average document length over the candidate set (spec §4.3 step 4). -/
def avgdl (docs : List TokenizedDocument) : ℚ :=
  ((docs.map docLength).sum : ℚ) / (docs.length : ℚ)

/-- Modelled from the spec: per §4.3 step 5, a document's BM25 score is
`Σ_t idf(t) · (tf(t,d)·(k1+1)) / (tf(t,d) + k1·(1 - b + b·|d|/avgdl))`
over the query's distinct terms (a term with `tf = 0` contributes 0, so
restricting to terms present in `d` does not change the sum). -/
def bm25Score (log : ℚ → ℚ) (query : List String) (docs : List TokenizedDocument)
    (d : TokenizedDocument) (k1 b : ℚ) : ℚ :=
  ((pyDedup query).map (fun t =>
    calculate_idf log t docs * ((calculate_tf t d : ℚ) * (k1 + 1)) /
      ((calculate_tf t d : ℚ) +
        k1 * (1 - b + b * (docLength d : ℚ) / avgdl docs)))).sum

/-- Modelled from the spec: `ranker.py` (`calculate_bm25`) is absent; per
§4.3 step 6 and §6, it scores every candidate and returns the (id, score)
pairs sorted descending by score with a stable tie-break by candidate
encounter order.  Truncation to top-k happens in the caller. -/
def calculate_bm25 (log : ℚ → ℚ) (query : List String)
    (docs : List TokenizedDocument) (k1 b : ℚ) : List (Nat × ℚ) :=
  rankDesc (docs.map (fun d => (d.id, bm25Score log query docs d k1 b)))

/-! ## The query-likelihood ranking algorithm

Modelled from the specification, §4.4, since `ranker.py` is absent. -/

/-- Modelled from the spec: `ranker.py` (`calculate_word_probability`) is
absent; per §4.4 it is `count(word in model) / total_tokens(model)`.  The
log-domain variant is handled at the sentence level (see `combineProbs`). -/
def calculate_word_probability (m : LanguageModel) (w : String) : ℚ :=
  (m.counter w : ℚ) / (m.total : ℚ)

/-- Combine per-token probabilities across a sentence: their product, or in
the normalized variant their log-sum, which must signal a domain error when
some factor is 0 (spec §4.4 edge case and §7).  Per the conventions above a
log-domain score is represented by the product whose log it is. -/
def combineProbs (probs : List ℚ) (normalize : Bool) : Except SearchError ℚ :=
  if normalize then
    if (0 : ℚ) ∈ probs then .error .domainError else .ok probs.prod
  else .ok probs.prod

/-- Modelled from the spec: `ranker.py` (`calculate_sentence_probability`)
is absent; per §4.4 it combines the per-token probabilities under one model
across the sentence (product, or log-sum when normalized). -/
def calculate_sentence_probability (m : LanguageModel) (tokens : List String)
    (normalize : Bool) : Except SearchError ℚ :=
  combineProbs (tokens.map (calculate_word_probability m)) normalize

/-- Modelled from the spec: `ranker.py`
(`calculate_interpolated_sentence_probability`) is absent; per §4.4 each
token's probability is the Jelinek–Mercer interpolation
`alpha · P(t|doc) + (1 - alpha) · P(t|collection)` and the per-token values
are combined across the sentence as in `calculate_sentence_probability`. -/
def calculate_interpolated_sentence_probability (m cm : LanguageModel)
    (tokens : List String) (alpha : ℚ) (normalize : Bool) :
    Except SearchError ℚ :=
  combineProbs
    (tokens.map (fun t =>
      alpha * calculate_word_probability m t +
        (1 - alpha) * calculate_word_probability cm t))
    normalize

/-! ## The search entry points (`src/searcher.py`)

The query is taken as an already cleaned and unknown-substituted token
sequence: `clean_words` and `replace_unknown_words` live in `util.py`,
which the spec places outside the core (§1).  The pickled session data
(documents, inverted index, language models) are explicit parameters. -/

/-- Modelled from the spec: the inverted index is built by
`process_docs.py`, which is absent; per §4.2 a lookup of a token not
present in the index returns an empty sequence, never an error. -/
def indexLookup (idx : List (String × List Nat)) (t : String) : List Nat :=
  match assocLookup idx t with
  | some ps => ps
  | none => []

/-- The concatenation of the postings lists of all query tokens, in query
order: the sequence generated by
`(doc_id for word in query for doc_id in inverted_index[word])`
in `bm25_search` (searcher.py line 43). -/
def postingsUnion (idx : List (String × List Nat)) : List String → List Nat
  | [] => []
  | w :: ws => indexLookup idx w ++ postingsUnion idx ws

/-- The candidate document ids of a query: the generated postings sequence
collected into a `set` (searcher.py line 43). -/
def candidateIds (idx : List (String × List Nat)) (query : List String) :
    List Nat :=
  pyDedup (postingsUnion idx query)

/-- `docs_map`: the documents keyed by id (searcher.py lines 32–36). -/
def docsMap (docs : List TokenizedDocument) : List (Nat × TokenizedDocument) :=
  buildDict (docs.map (fun d => (d.id, d)))

/-- `docs_map[doc_id]`: a missing key raises `KeyError`. -/
def docLookup (dm : List (Nat × TokenizedDocument)) (i : Nat) :
    Except SearchError TokenizedDocument :=
  match assocLookup dm i with
  | some d => .ok d
  | none => .error .keyError

/-- `bm25_search` (searcher.py lines 14–51): retrieve the candidate
documents via the inverted index, return `[]` when there are none, and
otherwise rank them with `calculate_bm25` (at its default parameters
`k1 = 1.2`, `b = 0.75`) and truncate with `[:topk]`. -/
def bm25_search (log : ℚ → ℚ) (docs : List TokenizedDocument)
    (idx : List (String × List Nat)) (query : List String)
    (topk : Option Int) : Except SearchError (List (Nat × ℚ)) :=
  match mapExcept (docLookup (docsMap docs)) (candidateIds idx query) with
  | .error e => .error e
  | .ok hits =>
    if hits.isEmpty then .ok []
    else .ok (pySlice (calculate_bm25 log query hits (1.2 : ℚ) (0.75 : ℚ)) topk)

/-- `models_map`: the per-document language models keyed by model id
(searcher.py line 76). -/
def modelsMap (models : List LanguageModel) :
    List (Option Nat × LanguageModel) :=
  buildDict (models.map (fun m => (m.id, m)))

/-- The scores dictionary of `qlm_search` (searcher.py lines 83–86): one
interpolated sentence probability per entry of `models_map`, in iteration
order, propagating the first error raised by the scoring function. -/
def qlmScores (models : List LanguageModel) (cm : LanguageModel)
    (query : List String) (alpha : ℚ) (normalize : Bool) :
    Except SearchError (List (Option Nat × ℚ)) :=
  mapExcept
    (fun p =>
      (calculate_interpolated_sentence_probability p.2 cm query alpha
          normalize).map
        (fun s => (p.1, s)))
    (modelsMap models)

/-- `qlm_search` (searcher.py lines 54–90): score every loaded document
language model against the query, sort the (id, score) pairs descending by
score with Python's stable sort, and truncate with `[:topk]`. -/
def qlm_search (models : List LanguageModel) (cm : LanguageModel)
    (query : List String) (topk : Option Int) (alpha : ℚ)
    (normalize : Bool) : Except SearchError (List (Option Nat × ℚ)) :=
  (qlmScores models cm query alpha normalize).map
    (fun scores => pySlice (rankDesc scores) topk)

/-! ## Helper lemmas about the embedding -/

theorem pySlice_nonneg {α : Type} (l : List α) {k : Int} (hk : 0 ≤ k) :
    pySlice l (some k) = l.take k.toNat := by
  simp [pySlice, hk]

theorem pySlice_neg {α : Type} (l : List α) {k : Int} (hk : k < 0) :
    pySlice l (some k) = l.take (l.length - (-k).toNat) := by
  simp [pySlice, not_le.2 hk]

theorem pySlice_sublist {α : Type} (l : List α) (topk : Option Int) :
    (pySlice l topk).Sublist l := by
  match topk with
  | none => exact List.Sublist.refl l
  | some k =>
    by_cases hk : 0 ≤ k
    · rw [pySlice_nonneg l hk]; exact List.take_sublist _ _
    · rw [pySlice_neg l (not_le.1 hk)]; exact List.take_sublist _ _

theorem mem_pyDedup {α : Type} [DecidableEq α] {a : α} :
    ∀ l : List α, a ∈ pyDedup l ↔ a ∈ l
  | [] => Iff.rfl
  | x :: xs => by
    simp only [pyDedup, List.mem_cons, List.mem_filter]
    by_cases hax : a = x
    · simp [hax]
    · simp [hax, mem_pyDedup xs]

theorem pyDedup_nodup {α : Type} [DecidableEq α] : ∀ l : List α, (pyDedup l).Nodup
  | [] => List.nodup_nil
  | x :: xs => by
    simp only [pyDedup]
    refine List.Nodup.cons ?_ (List.Nodup.filter _ (pyDedup_nodup xs))
    intro hmem
    rcases List.mem_filter.1 hmem with ⟨-, hne⟩
    simp at hne

theorem pyDedup_eq_nil_iff {α : Type} [DecidableEq α] {l : List α} :
    pyDedup l = [] ↔ l = [] := by
  cases l with
  | nil => simp [pyDedup]
  | cons x xs => simp [pyDedup]

theorem filter_swap {α : Type} (p q : α → Bool) (l : List α) :
    (l.filter p).filter q = (l.filter q).filter p := by
  simp only [List.filter_filter]
  exact List.filter_congr (fun a _ => Bool.and_comm (q a) (p a))

theorem pyDedup_filter {α : Type} [DecidableEq α] (p : α → Bool) :
    ∀ l : List α, pyDedup (l.filter p) = (pyDedup l).filter p
  | [] => rfl
  | x :: xs => by
    by_cases hp : p x
    · have : (x :: xs).filter p = x :: xs.filter p := by simp [hp]
      rw [this, pyDedup, pyDedup, pyDedup_filter p xs, List.filter_cons_of_pos hp,
        filter_swap]
    · have hfx : (x :: xs).filter p = xs.filter p := by
        simp [List.filter_cons, hp]
      rw [hfx, pyDedup_filter p xs, pyDedup, List.filter_cons_of_neg (by simp [hp]),
        filter_swap]
      symm
      apply List.filter_eq_self.2
      intro a ha
      rcases List.mem_filter.1 ha with ⟨-, hpa⟩
      have hax : a ≠ x := fun h => by rw [h] at hpa; exact hp (by simpa using hpa)
      simpa using hax

theorem sum_map_filter_ne {α : Type} [DecidableEq α] (f : α → ℚ) (t : α)
    (h : f t = 0) : ∀ l : List α,
    (((l.filter (fun a => a ≠ t)).map f)).sum = ((l.map f)).sum
  | [] => rfl
  | x :: xs => by
    by_cases hx : x = t
    · rw [List.filter_cons_of_neg (by simp [hx]), List.map_cons, List.sum_cons,
        hx, h, zero_add, sum_map_filter_ne f t h xs]
    · rw [List.filter_cons_of_pos (by simpa using hx), List.map_cons, List.map_cons,
        List.sum_cons, List.sum_cons, sum_map_filter_ne f t h xs]

theorem mapExcept_ok_forall₂ {ε α β : Type} {f : α → Except ε β} :
    ∀ {l : List α} {ys : List β}, mapExcept f l = .ok ys ↔
      List.Forall₂ (fun x y => f x = .ok y) l ys := by
  intro l
  induction l with
  | nil =>
    intro ys
    constructor
    · intro h
      cases ys with
      | nil => exact List.Forall₂.nil
      | cons y ys => simp [mapExcept] at h
    · intro h
      cases h
      rfl
  | cons x xs ih =>
    intro ys
    constructor
    · intro h
      rw [mapExcept] at h
      cases hfx : f x with
      | error e => rw [hfx] at h; simp at h
      | ok y =>
        rw [hfx] at h
        cases hxs : mapExcept f xs with
        | error e => rw [hxs] at h; simp at h
        | ok ys' =>
          rw [hxs] at h
          simp only [Except.ok.injEq] at h
          subst h
          exact List.Forall₂.cons hfx (ih.1 hxs)
    · intro h
      cases h with
      | cons hfx hrest =>
        rw [mapExcept, hfx, ih.2 hrest]

theorem mem_dictInsert {κ ν : Type} [DecidableEq κ] {k : κ} {v : ν} {p : κ × ν} :
    ∀ {l : List (κ × ν)}, p ∈ dictInsert k v l → p = (k, v) ∨ p ∈ l
  | [] => by simp [dictInsert]
  | q :: rest => by
    simp only [dictInsert]
    by_cases hq : q.1 = k
    · rw [if_pos hq]
      intro h
      rcases List.mem_cons.1 h with h | h
      · exact Or.inl h
      · exact Or.inr (List.mem_cons_of_mem _ h)
    · rw [if_neg hq]
      intro h
      rcases List.mem_cons.1 h with h | h
      · exact Or.inr (h ▸ List.mem_cons_self _ _)
      · rcases mem_dictInsert h with h | h
        · exact Or.inl h
        · exact Or.inr (List.mem_cons_of_mem _ h)

theorem mem_buildDict_aux {κ ν : Type} [DecidableEq κ] {p : κ × ν} :
    ∀ (l acc : List (κ × ν)),
      p ∈ l.foldl (fun acc q => dictInsert q.1 q.2 acc) acc → p ∈ acc ∨ p ∈ l
  | [], acc => fun h => Or.inl h
  | q :: rest, acc => by
    intro h
    rcases mem_buildDict_aux rest (dictInsert q.1 q.2 acc) h with h | h
    · rcases mem_dictInsert h with h | h
      · exact Or.inr (List.mem_cons.2 (Or.inl (by rw [h])))
      · exact Or.inl h
    · exact Or.inr (List.mem_cons_of_mem _ h)

theorem mem_buildDict {κ ν : Type} [DecidableEq κ] {p : κ × ν}
    {l : List (κ × ν)} (h : p ∈ buildDict l) : p ∈ l := by
  rcases mem_buildDict_aux l [] h with h | h
  · cases h
  · exact h

theorem assocLookup_some {κ ν : Type} [DecidableEq κ] {l : List (κ × ν)} {k : κ}
    {v : ν} (h : assocLookup l k = some v) : (k, v) ∈ l := by
  rcases Option.map_eq_some'.1 h with ⟨p, hfind, hv⟩
  have hp := List.find?_some hfind
  have hmem := List.mem_of_find?_eq_some hfind
  have : p.1 = k := by simpa using hp
  have : p = (k, v) := by
    cases p
    simp_all
  exact this ▸ hmem

theorem keys_dictInsert_subset {κ ν : Type} [DecidableEq κ] {k a : κ} {v : ν} :
    ∀ {l : List (κ × ν)}, a ∈ (dictInsert k v l).map Prod.fst →
      a = k ∨ a ∈ l.map Prod.fst := by
  intro l ha
  rcases List.mem_map.1 ha with ⟨p, hp, hpa⟩
  rcases mem_dictInsert hp with h | h
  · exact Or.inl (by rw [← hpa, h])
  · exact Or.inr (hpa ▸ List.mem_map_of_mem _ h)

theorem keys_dictInsert_nodup {κ ν : Type} [DecidableEq κ] {k : κ} {v : ν} :
    ∀ {l : List (κ × ν)}, (l.map Prod.fst).Nodup →
      ((dictInsert k v l).map Prod.fst).Nodup
  | [] => fun _ => by simp [dictInsert]
  | q :: rest => by
    intro h
    rw [List.map_cons, List.nodup_cons] at h
    simp only [dictInsert]
    by_cases hq : q.1 = k
    · rw [if_pos hq, List.map_cons, List.nodup_cons]
      exact ⟨by rw [← hq]; exact h.1, h.2⟩
    · rw [if_neg hq, List.map_cons, List.nodup_cons]
      refine ⟨fun hin => ?_, keys_dictInsert_nodup h.2⟩
      rcases keys_dictInsert_subset hin with h' | h'
      · exact hq h'
      · exact h.1 h'

theorem buildDict_keys_nodup_aux {κ ν : Type} [DecidableEq κ] :
    ∀ (l acc : List (κ × ν)), (acc.map Prod.fst).Nodup →
      ((l.foldl (fun acc q => dictInsert q.1 q.2 acc) acc).map Prod.fst).Nodup
  | [], _ => fun h => h
  | q :: rest, acc => fun h =>
    buildDict_keys_nodup_aux rest (dictInsert q.1 q.2 acc) (keys_dictInsert_nodup h)

theorem buildDict_keys_nodup {κ ν : Type} [DecidableEq κ] (l : List (κ × ν)) :
    ((buildDict l).map Prod.fst).Nodup :=
  buildDict_keys_nodup_aux l [] List.nodup_nil

theorem dictInsert_of_notMem {κ ν : Type} [DecidableEq κ] {k : κ} {v : ν} :
    ∀ {l : List (κ × ν)}, k ∉ l.map Prod.fst → dictInsert k v l = l ++ [(k, v)]
  | [] => fun _ => rfl
  | q :: rest => by
    intro h
    rw [List.map_cons] at h
    have hq : q.1 ≠ k := fun hqk => h (List.mem_cons.2 (Or.inl hqk.symm))
    simp only [dictInsert, if_neg hq, List.cons_append, List.cons.injEq, true_and]
    exact dictInsert_of_notMem (fun hmem => h (List.mem_cons_of_mem _ hmem))

theorem buildDict_eq_self_aux {κ ν : Type} [DecidableEq κ] :
    ∀ (l acc : List (κ × ν)),
      ((acc ++ l).map Prod.fst).Nodup →
      l.foldl (fun acc q => dictInsert q.1 q.2 acc) acc = acc ++ l
  | [], acc => fun _ => by simp
  | q :: rest, acc => by
    intro h
    have hq : q.1 ∉ acc.map Prod.fst := by
      intro hmem
      rw [List.map_append, List.nodup_append] at h
      exact h.2.2 hmem (by simp)
    have hstep : dictInsert q.1 q.2 acc = acc ++ [q] := by
      rw [dictInsert_of_notMem hq]
    rw [List.foldl_cons, hstep, buildDict_eq_self_aux rest (acc ++ [q]) (by simpa using h)]
    simp

theorem buildDict_eq_self {κ ν : Type} [DecidableEq κ] {l : List (κ × ν)}
    (h : (l.map Prod.fst).Nodup) : buildDict l = l :=
  buildDict_eq_self_aux l [] (by simpa using h)

theorem docLookup_spec {docs : List TokenizedDocument} {i : Nat} {d : TokenizedDocument}
    (h : docLookup (docsMap docs) i = .ok d) : d.id = i ∧ d ∈ docs := by
  rw [docLookup] at h
  cases hl : assocLookup (docsMap docs) i with
  | none => rw [hl] at h; simp at h
  | some e =>
    rw [hl] at h
    injection h with h
    subst h
    have hmem := mem_buildDict (assocLookup_some hl)
    rcases List.mem_map.1 hmem with ⟨d₀, hd₀, heq⟩
    have h1 : d₀.id = i := congrArg Prod.fst heq
    have h2 : d₀ = e := congrArg Prod.snd heq
    exact ⟨h2 ▸ h1, h2 ▸ hd₀⟩

theorem hits_ids {docs : List TokenizedDocument} :
    ∀ {ids : List Nat} {hits : List TokenizedDocument},
      mapExcept (docLookup (docsMap docs)) ids = .ok hits →
      hits.map (·.id) = ids ∧ ∀ d ∈ hits, d ∈ docs := by
  intro ids hits h
  have hf := mapExcept_ok_forall₂.1 h
  clear h
  induction hf with
  | nil => exact ⟨rfl, by simp⟩
  | cons hfx _ ih =>
    rcases docLookup_spec hfx with ⟨hid, hmem⟩
    refine ⟨by simp [ih.1, hid], ?_⟩
    intro d hd
    rcases List.mem_cons.1 hd with h | h
    · exact h ▸ hmem
    · exact ih.2 d h

theorem mem_postingsUnion {idx : List (String × List Nat)} {i : Nat} :
    ∀ ws : List String, i ∈ postingsUnion idx ws ↔ ∃ w ∈ ws, i ∈ indexLookup idx w
  | [] => by simp [postingsUnion]
  | w :: ws => by
    simp only [postingsUnion, List.mem_append, mem_postingsUnion ws,
      List.mem_cons]
    constructor
    · rintro (h | ⟨w', hw', hi⟩)
      · exact ⟨w, Or.inl rfl, h⟩
      · exact ⟨w', Or.inr hw', hi⟩
    · rintro ⟨w', rfl | hw', hi⟩
      · exact Or.inl hi
      · exact Or.inr ⟨w', hw', hi⟩

theorem rankDesc_sorted {α : Type} (l : List (α × ℚ)) :
    (rankDesc l).Sorted scoreGe :=
  List.sorted_insertionSort scoreGe l

theorem rankDesc_perm {α : Type} (l : List (α × ℚ)) : (rankDesc l).Perm l :=
  List.perm_insertionSort scoreGe l

theorem filter_orderedInsert_eq {α : Type} {x : α × ℚ} {q : ℚ} (hx : x.2 = q) :
    ∀ l : List (α × ℚ), (List.orderedInsert scoreGe x l).filter (fun y => y.2 = q) =
      x :: l.filter (fun y => y.2 = q)
  | [] => by simp [List.orderedInsert, hx]
  | b :: l => by
    rw [List.orderedInsert]
    by_cases hb : scoreGe x b
    · rw [if_pos hb, List.filter_cons_of_pos (by simp [hx])]
    · have hbq : ¬b.2 = q := by
        rw [scoreGe, not_le] at hb
        exact fun h => absurd (h.trans hx.symm).le (not_le.2 hb)
      rw [if_neg hb, List.filter_cons_of_neg (by simpa using hbq),
        filter_orderedInsert_eq hx l, List.filter_cons_of_neg (by simpa using hbq)]

theorem filter_orderedInsert_ne {α : Type} {x : α × ℚ} {q : ℚ} (hx : x.2 ≠ q) :
    ∀ l : List (α × ℚ), (List.orderedInsert scoreGe x l).filter (fun y => y.2 = q) =
      l.filter (fun y => y.2 = q)
  | [] => by simp [List.orderedInsert, hx]
  | b :: l => by
    rw [List.orderedInsert]
    by_cases hb : scoreGe x b
    · rw [if_pos hb, List.filter_cons_of_neg (by simpa using hx)]
    · rw [if_neg hb, List.filter_cons, List.filter_cons, filter_orderedInsert_ne hx l]

theorem rankDesc_filter_score {α : Type} (q : ℚ) :
    ∀ l : List (α × ℚ), (rankDesc l).filter (fun y => y.2 = q) =
      l.filter (fun y => y.2 = q)
  | [] => rfl
  | x :: l => by
    have ih := rankDesc_filter_score q l
    rw [rankDesc] at ih ⊢
    rw [List.insertionSort]
    by_cases hx : x.2 = q
    · rw [filter_orderedInsert_eq hx, ih, List.filter_cons_of_pos (by simpa using hx)]
    · rw [filter_orderedInsert_ne hx, ih, List.filter_cons_of_neg (by simpa using hx)]

theorem mapExcept_ok_of_forall {ε α β : Type} {f : α → Except ε β} :
    ∀ {l : List α}, (∀ x ∈ l, ∃ y, f x = .ok y) →
      ∃ ys, mapExcept f l = .ok ys
  | [] => fun _ => ⟨[], rfl⟩
  | x :: xs => by
    intro h
    rcases h x (List.mem_cons_self x xs) with ⟨y, hy⟩
    rcases mapExcept_ok_of_forall (fun a ha => h a (List.mem_cons_of_mem _ ha)) with
      ⟨ys, hys⟩
    exact ⟨y :: ys, by rw [mapExcept, hy, hys]⟩

theorem qlmScores_keys {models : List LanguageModel} {cm : LanguageModel}
    {query : List String} {alpha : ℚ} {normalize : Bool}
    {scores : List (Option Nat × ℚ)}
    (hs : qlmScores models cm query alpha normalize = .ok scores) :
    scores.map Prod.fst = (modelsMap models).map Prod.fst := by
  have hf := mapExcept_ok_forall₂.1 hs
  clear hs
  generalize hL : modelsMap models = L at hf ⊢
  clear hL
  induction hf with
  | nil => rfl
  | @cons p y l₁ l₂ hfx hrest ih =>
    cases hi : calculate_interpolated_sentence_probability p.2 cm query alpha
        normalize with
    | error e => rw [hi] at hfx; simp [Except.map] at hfx
    | ok s =>
      rw [hi] at hfx
      simp only [Except.map, Except.ok.injEq] at hfx
      rw [List.map_cons, List.map_cons, ih, ← hfx]

theorem interp_false_ok (m cm : LanguageModel) (tokens : List String) (alpha : ℚ) :
    calculate_interpolated_sentence_probability m cm tokens alpha false =
      .ok ((tokens.map (fun t =>
        alpha * calculate_word_probability m t +
          (1 - alpha) * calculate_word_probability cm t)).prod) := rfl

theorem qlmScores_false_ok (models : List LanguageModel) (cm : LanguageModel)
    (query : List String) (alpha : ℚ) :
    ∃ scores, qlmScores models cm query alpha false = .ok scores := by
  apply mapExcept_ok_of_forall
  intro p _
  refine ⟨(p.1, (query.map (fun t =>
      alpha * calculate_word_probability p.2 t +
        (1 - alpha) * calculate_word_probability cm t)).prod), ?_⟩
  rw [interp_false_ok]
  rfl

theorem qlm_search_eq {models : List LanguageModel} {cm : LanguageModel}
    {query : List String} {alpha : ℚ} {normalize : Bool}
    {scores : List (Option Nat × ℚ)}
    (hs : qlmScores models cm query alpha normalize = .ok scores)
    (topk : Option Int) :
    qlm_search models cm query topk alpha normalize =
      .ok (pySlice (rankDesc scores) topk) := by
  rw [qlm_search, hs]
  rfl

/-! ## The claims -/

/-- C7: for every document model, collection model and token sequence, the
interpolated sentence probability with `alpha = 1` equals the
non-interpolated probability of the sequence under the document model
alone, and with `alpha = 0` it equals the probability under the collection
model alone (in both the plain and the normalized combination mode). -/
theorem c7_interpolation_alpha_endpoints (m cm : LanguageModel)
    (tokens : List String) (normalize : Bool) :
    calculate_interpolated_sentence_probability m cm tokens 1 normalize =
      calculate_sentence_probability m tokens normalize ∧
    calculate_interpolated_sentence_probability m cm tokens 0 normalize =
      calculate_sentence_probability cm tokens normalize := by
  constructor
  · rw [calculate_interpolated_sentence_probability, calculate_sentence_probability]
    have h : (fun t => (1 : ℚ) * calculate_word_probability m t +
        (1 - 1) * calculate_word_probability cm t) =
        fun t => calculate_word_probability m t := by
      funext t
      ring
    rw [h]
  · rw [calculate_interpolated_sentence_probability, calculate_sentence_probability]
    have h : (fun t => (0 : ℚ) * calculate_word_probability m t +
        (1 - 0) * calculate_word_probability cm t) =
        fun t => calculate_word_probability cm t := by
      funext t
      ring
    rw [h]

/-- C8: for every query token unseen by both the document model and the
collection model, the non-normalized interpolated sentence probability is
exactly 0, and the normalized (log) combination signals a domain error
instead of producing a value. -/
theorem c8_unseen_token_zero_and_domain_error (m cm : LanguageModel)
    (tokens : List String) (t : String) (alpha : ℚ) (ht : t ∈ tokens)
    (hm : m.counter t = 0) (hc : cm.counter t = 0) :
    calculate_interpolated_sentence_probability m cm tokens alpha false = .ok 0 ∧
    calculate_interpolated_sentence_probability m cm tokens alpha true =
      .error .domainError := by
  have hz : alpha * calculate_word_probability m t +
      (1 - alpha) * calculate_word_probability cm t = 0 := by
    simp [calculate_word_probability, hm, hc]
  have hmem : (0 : ℚ) ∈ tokens.map (fun t =>
      alpha * calculate_word_probability m t +
        (1 - alpha) * calculate_word_probability cm t) :=
    List.mem_map.2 ⟨t, ht, hz⟩
  constructor
  · rw [calculate_interpolated_sentence_probability, combineProbs]
    simp only [Bool.false_eq_true, if_false, Except.ok.injEq]
    exact List.prod_eq_zero hmem
  · rw [calculate_interpolated_sentence_probability, combineProbs]
    simp only [if_true]
    rw [if_pos hmem]

/-- C8 witness: a concrete instantiation with token c unseen by both a
document model and a collection model. -/
theorem c8_unseen_token_zero_and_domain_error_witness :
    ("c" ∈ ["b", "c"] ∧
      (LanguageModel.mk (some 0) (fun w => if w = "b" then 2 else 0) 4 1).counter
        "c" = 0 ∧
      (LanguageModel.mk none (fun w => if w = "b" then 3 else 0) 8 2).counter
        "c" = 0) ∧
    (calculate_interpolated_sentence_probability
        ⟨some 0, fun w => if w = "b" then 2 else 0, 4, 1⟩
        ⟨none, fun w => if w = "b" then 3 else 0, 8, 2⟩
        ["b", "c"] (3/4) false = .ok 0 ∧
      calculate_interpolated_sentence_probability
        ⟨some 0, fun w => if w = "b" then 2 else 0, 4, 1⟩
        ⟨none, fun w => if w = "b" then 3 else 0, 8, 2⟩
        ["b", "c"] (3/4) true = .error .domainError) :=
  ⟨⟨by decide, by decide, by decide⟩,
    c8_unseen_token_zero_and_domain_error
      ⟨some 0, fun w => if w = "b" then 2 else 0, 4, 1⟩
      ⟨none, fun w => if w = "b" then 3 else 0, 8, 2⟩
      ["b", "c"] "c" (3/4) (by decide) (by decide) (by decide)⟩

/-- C4: when the query is empty, or no query token retrieves any candidate
document, `bm25_search` returns the empty list (and no error), for any
`topk`. -/
theorem c4_bm25_search_empty_candidates (log : ℚ → ℚ)
    (docs : List TokenizedDocument) (idx : List (String × List Nat))
    (query : List String) (topk : Option Int)
    (h : query = [] ∨ candidateIds idx query = []) :
    bm25_search log docs idx query topk = .ok [] := by
  have hc : candidateIds idx query = [] := by
    rcases h with h | h
    · rw [h]; rfl
    · exact h
  rw [bm25_search, hc]
  rfl

/-- C4 witness: a query of tokens that retrieve nothing from a concrete
index over three documents. -/
theorem c4_bm25_search_empty_candidates_witness :
    (candidateIds [("a", [0]), ("b", [0, 1])] ["z"] = []) ∧
    bm25_search (fun _ => 0)
      [⟨0, ["a"], ["b", "c"]⟩, ⟨1, ["b"], ["c", "d"]⟩]
      [("a", [0]), ("b", [0, 1])] ["z"] (some 5) = .ok [] :=
  ⟨by decide,
    c4_bm25_search_empty_candidates _ _ _ _ _ (Or.inr (by decide))⟩

/-- C1: the list returned by `qlm_search` is sorted in non-increasing order
of score; ties are broken by the iteration order of the model collection
(the scores list is built in `models_map` iteration order, and for every
score value the pairs carrying it appear in the output in exactly the order
they have in the scores list, i.e. the sort is stable); and with
`topk = some k` the output is the first `k` entries of the full ranking. -/
theorem c1_qlm_search_sorted_stable_truncated (models : List LanguageModel)
    (cm : LanguageModel) (query : List String) (alpha : ℚ) (normalize : Bool)
    (scores : List (Option Nat × ℚ))
    (hs : qlmScores models cm query alpha normalize = .ok scores)
    (k : Int) (hk : 0 ≤ k) :
    qlm_search models cm query none alpha normalize = .ok (rankDesc scores) ∧
    (rankDesc scores).Sorted scoreGe ∧
    (∀ q : ℚ, (rankDesc scores).filter (fun y => y.2 = q) =
      scores.filter (fun y => y.2 = q)) ∧
    qlm_search models cm query (some k) alpha normalize =
      .ok ((rankDesc scores).take k.toNat) := by
  refine ⟨?_, rankDesc_sorted scores, fun q => rankDesc_filter_score q scores, ?_⟩
  · rw [qlm_search_eq hs none]
    rfl
  · rw [qlm_search_eq hs (some k), pySlice_nonneg _ hk]

/-- C5: with `topk = none` both searches return the complete ranked list,
and with a non-negative `topk = some k` they return exactly the first `k`
entries of that same full ranking (hence at most `k` pairs), and the full
ranking of either search is sorted best score first. -/
theorem c5_topk_prefix_of_full_ranking (log : ℚ → ℚ)
    (docs : List TokenizedDocument) (idx : List (String × List Nat))
    (query : List String) (models : List LanguageModel) (cm : LanguageModel)
    (query2 : List String) (alpha : ℚ) (normalize : Bool)
    (k : Int) (hk : 0 ≤ k) :
    bm25_search log docs idx query (some k) =
      (bm25_search log docs idx query none).map (fun res => res.take k.toNat) ∧
    qlm_search models cm query2 (some k) alpha normalize =
      (qlm_search models cm query2 none alpha normalize).map
        (fun res => res.take k.toNat) ∧
    (∀ res, bm25_search log docs idx query none = .ok res →
      res.Sorted scoreGe) ∧
    (∀ res, qlm_search models cm query2 none alpha normalize = .ok res →
      res.Sorted scoreGe) ∧
    (∀ res, bm25_search log docs idx query (some k) = .ok res →
      res.length ≤ k.toNat) ∧
    (∀ res, qlm_search models cm query2 (some k) alpha normalize = .ok res →
      res.length ≤ k.toNat) := by
  have hbm : bm25_search log docs idx query (some k) =
      (bm25_search log docs idx query none).map (fun res => res.take k.toNat) := by
    rw [bm25_search, bm25_search]
    cases hm : mapExcept (docLookup (docsMap docs)) (candidateIds idx query) with
    | error e => rfl
    | ok hits =>
      by_cases he : hits.isEmpty
      · simp [he, Except.map]
      · simp only [he, if_false, Except.map, pySlice_nonneg _ hk]
        rfl
  have hqm : qlm_search models cm query2 (some k) alpha normalize =
      (qlm_search models cm query2 none alpha normalize).map
        (fun res => res.take k.toNat) := by
    cases hs : qlmScores models cm query2 alpha normalize with
    | error e => rw [qlm_search, qlm_search, hs]; rfl
    | ok scores =>
      rw [qlm_search_eq hs (some k), qlm_search_eq hs none,
        pySlice_nonneg _ hk]
      rfl
  refine ⟨hbm, hqm, ?_, ?_, ?_, ?_⟩
  · intro res h
    rw [bm25_search] at h
    split at h
    · cases h
    · split at h
      · injection h with h
        subst h
        exact List.sorted_nil
      · injection h with h
        subst h
        exact rankDesc_sorted _
  · intro res h
    cases hs : qlmScores models cm query2 alpha normalize with
    | error e => rw [qlm_search, hs] at h; cases h
    | ok scores =>
      rw [qlm_search_eq hs none] at h
      injection h with h
      subst h
      exact rankDesc_sorted _
  · intro res h
    rw [hbm] at h
    cases hfull : bm25_search log docs idx query none with
    | error e => rw [hfull] at h; cases h
    | ok full =>
      rw [hfull] at h
      injection h with h
      subst h
      simp
  · intro res h
    rw [hqm] at h
    cases hfull : qlm_search models cm query2 none alpha normalize with
    | error e => rw [hfull] at h; cases h
    | ok full =>
      rw [hfull] at h
      injection h with h
      subst h
      simp

/-- C5 witness: the prefix property instantiated at `k = 1` on a concrete
collection for both searches. -/
theorem c5_topk_prefix_of_full_ranking_witness :
    (0 : Int) ≤ 1 ∧
    (bm25_search (fun _ => 0) [⟨0, ["a"], ["b", "c"]⟩]
        [("a", [0])] ["a"] (some 1) =
      (bm25_search (fun _ => 0) [⟨0, ["a"], ["b", "c"]⟩]
          [("a", [0])] ["a"] none).map (fun res => res.take (1 : Int).toNat) ∧
      qlm_search [⟨some 0, fun _ => 1, 2, 1⟩] ⟨none, fun _ => 1, 2, 1⟩
        ["a"] (some 1) (3/4) false =
      (qlm_search [⟨some 0, fun _ => 1, 2, 1⟩] ⟨none, fun _ => 1, 2, 1⟩
          ["a"] none (3/4) false).map (fun res => res.take (1 : Int).toNat) ∧
      (∀ res, bm25_search (fun _ => 0) [⟨0, ["a"], ["b", "c"]⟩]
          [("a", [0])] ["a"] none = .ok res → res.Sorted scoreGe) ∧
      (∀ res, qlm_search [⟨some 0, fun _ => 1, 2, 1⟩] ⟨none, fun _ => 1, 2, 1⟩
          ["a"] none (3/4) false = .ok res → res.Sorted scoreGe) ∧
      (∀ res, bm25_search (fun _ => 0) [⟨0, ["a"], ["b", "c"]⟩]
          [("a", [0])] ["a"] (some 1) = .ok res → res.length ≤ (1 : Int).toNat) ∧
      (∀ res, qlm_search [⟨some 0, fun _ => 1, 2, 1⟩] ⟨none, fun _ => 1, 2, 1⟩
          ["a"] (some 1) (3/4) false = .ok res → res.length ≤ (1 : Int).toNat)) :=
  ⟨by decide,
    c5_topk_prefix_of_full_ranking (fun _ => 0) [⟨0, ["a"], ["b", "c"]⟩]
      [("a", [0])] ["a"] [⟨some 0, fun _ => 1, 2, 1⟩] ⟨none, fun _ => 1, 2, 1⟩
      ["a"] (3/4) false 1 (by decide)⟩

/-- C6 counterexample: `qlm_search` called with a negative `topk` and an
`alpha` outside `[0, 1]` does not fail: it returns a result list, produced
by applying the negative bound as a Python slice (with two models and
`topk = -1`, the top entry alone is returned). -/
theorem c6_counterexample_no_input_error :
    ((-1 : Int) < 0) ∧ ¬((0 : ℚ) ≤ 2 ∧ (2 : ℚ) ≤ 1) ∧
    qlm_search
        [⟨some 0, fun w => if w = "b" then 1 else 0, 1, 1⟩,
          ⟨some 1, fun _ => 0, 1, 1⟩]
        ⟨none, fun w => if w = "b" then 1 else 0, 2, 2⟩
        ["b"] (some (-1)) 2 false = .ok [(some 0, 3/2)] := by
  refine ⟨by decide, by norm_num, ?_⟩
  norm_num [qlm_search, qlmScores, modelsMap, buildDict, dictInsert, mapExcept,
    calculate_interpolated_sentence_probability, combineProbs, Except.map,
    calculate_word_probability, rankDesc, pySlice, List.insertionSort,
    List.orderedInsert, scoreGe]

/-- C6 amended: `qlm_search` performs no input validation.  A negative
`topk` does not fail: it is applied as a Python slice bound, so the search
returns the full ranking with its last `-topk` entries dropped; and with
the non-normalized combination the search returns a result for every
`alpha`, including values outside `[0, 1]`, rather than surfacing an
input error. -/
theorem c6_qlm_search_no_input_validation (models : List LanguageModel)
    (cm : LanguageModel) (query : List String) (alpha : ℚ)
    (k : Int) (hk : k < 0) :
    ∃ res, qlm_search models cm query none alpha false = .ok res ∧
      qlm_search models cm query (some k) alpha false =
        .ok (res.take (res.length - (-k).toNat)) := by
  rcases qlmScores_false_ok models cm query alpha with ⟨scores, hs⟩
  refine ⟨rankDesc scores, ?_, ?_⟩
  · rw [qlm_search_eq hs none]
    rfl
  · rw [qlm_search_eq hs (some k), pySlice_neg _ hk]

/-- C6 amended witness: instantiated at `alpha = 2` and `topk = -1`. -/
theorem c6_qlm_search_no_input_validation_witness :
    ((-1 : Int) < 0) ∧
    ∃ res, qlm_search [⟨some 0, fun w => if w = "b" then 1 else 0, 1, 1⟩]
        ⟨none, fun w => if w = "b" then 1 else 0, 2, 2⟩
        ["b"] none 2 false = .ok res ∧
      qlm_search [⟨some 0, fun w => if w = "b" then 1 else 0, 1, 1⟩]
        ⟨none, fun w => if w = "b" then 1 else 0, 2, 2⟩
        ["b"] (some (-1)) 2 false =
        .ok (res.take (res.length - (-(-1 : Int)).toNat)) :=
  ⟨by decide,
    c6_qlm_search_no_input_validation
      [⟨some 0, fun w => if w = "b" then 1 else 0, 1, 1⟩]
      ⟨none, fun w => if w = "b" then 1 else 0, 2, 2⟩
      ["b"] 2 (-1) (by decide)⟩

theorem indexLookup_eq_nil {idx : List (String × List Nat)} {t : String}
    (hidx : ∀ p ∈ idx, p.1 ≠ t) : indexLookup idx t = [] := by
  rw [indexLookup, assocLookup, List.find?_eq_none.2]
  · rfl
  · intro p hp
    simpa using hidx p hp

theorem postingsUnion_filter_ne {idx : List (String × List Nat)} {t : String}
    (hl : indexLookup idx t = []) :
    ∀ ws : List String,
      postingsUnion idx (ws.filter (fun w => w ≠ t)) = postingsUnion idx ws
  | [] => rfl
  | w :: ws => by
    by_cases hw : w = t
    · rw [List.filter_cons_of_neg (by simp [hw]), postingsUnion_filter_ne hl ws]
      conv_rhs => rw [postingsUnion]
      rw [hw, hl, List.nil_append]
    · rw [List.filter_cons_of_pos (by simpa using hw), postingsUnion, postingsUnion,
        postingsUnion_filter_ne hl ws]

theorem bm25Score_filter_ne (log : ℚ → ℚ) {t : String} (query : List String)
    (hits : List TokenizedDocument) {d : TokenizedDocument} (k1 b : ℚ)
    (htf : calculate_tf t d = 0) :
    bm25Score log (query.filter (fun w => w ≠ t)) hits d k1 b =
      bm25Score log query hits d k1 b := by
  rw [bm25Score, bm25Score, pyDedup_filter]
  exact sum_map_filter_ne _ t (by simp [htf]) (pyDedup query)

theorem calculate_bm25_filter_ne (log : ℚ → ℚ) {t : String} (query : List String)
    {hits : List TokenizedDocument} (k1 b : ℚ)
    (h : ∀ d ∈ hits, calculate_tf t d = 0) :
    calculate_bm25 log (query.filter (fun w => w ≠ t)) hits k1 b =
      calculate_bm25 log query hits k1 b := by
  rw [calculate_bm25, calculate_bm25]
  congr 1
  apply List.map_congr_left
  intro d hd
  rw [bm25Score_filter_ne log query hits k1 b (h d hd)]

/-- C2: a query token absent from the inverted index looks up to an empty
postings sequence (never an error), and in `bm25_search` such a token
contributes nothing: the search behaves exactly as if every occurrence of
the token were removed from the query, so the call still succeeds whenever
it would succeed without the token. -/
theorem c2_unknown_token_zero_contribution (log : ℚ → ℚ)
    (docs : List TokenizedDocument) (idx : List (String × List Nat))
    (query : List String) (t : String) (topk : Option Int)
    (hidx : ∀ p ∈ idx, p.1 ≠ t) (hdocs : ∀ d ∈ docs, t ∉ docTokens d) :
    indexLookup idx t = [] ∧
    bm25_search log docs idx query topk =
      bm25_search log docs idx (query.filter (fun w => w ≠ t)) topk := by
  have hl := indexLookup_eq_nil hidx
  refine ⟨hl, ?_⟩
  have hcand : candidateIds idx (query.filter (fun w => w ≠ t)) =
      candidateIds idx query := by
    rw [candidateIds, candidateIds, postingsUnion_filter_ne hl query]
  rw [bm25_search, bm25_search, hcand]
  cases hm : mapExcept (docLookup (docsMap docs)) (candidateIds idx query) with
  | error e => rfl
  | ok hits =>
    have htf : ∀ d ∈ hits, calculate_tf t d = 0 := by
      intro d hd
      exact List.count_eq_zero.2 (hdocs d ((hits_ids hm).2 d hd))
    dsimp only
    rw [calculate_bm25_filter_ne log query 1.2 0.75 htf]

/-- C2 witness: a token `z` missing from a concrete index and collection,
added to the query `["b", "z"]`. -/
theorem c2_unknown_token_zero_contribution_witness :
    (∀ p ∈ [("a", [0]), ("b", [0, 1])], p.1 ≠ "z") ∧
    (∀ d ∈ [⟨0, ["a"], ["b", "c"]⟩, ⟨1, ["b"], ["c", "d"]⟩],
      "z" ∉ docTokens d) ∧
    (indexLookup [("a", [0]), ("b", [0, 1])] "z" = [] ∧
      bm25_search (fun _ => 0) [⟨0, ["a"], ["b", "c"]⟩, ⟨1, ["b"], ["c", "d"]⟩]
        [("a", [0]), ("b", [0, 1])] ["b", "z"] (some 10) =
      bm25_search (fun _ => 0) [⟨0, ["a"], ["b", "c"]⟩, ⟨1, ["b"], ["c", "d"]⟩]
        [("a", [0]), ("b", [0, 1])]
        (["b", "z"].filter (fun w => w ≠ "z")) (some 10)) :=
  ⟨by decide, by decide,
    c2_unknown_token_zero_contribution (fun _ => 0)
      [⟨0, ["a"], ["b", "c"]⟩, ⟨1, ["b"], ["c", "d"]⟩]
      [("a", [0]), ("b", [0, 1])] ["b", "z"] "z" (some 10)
      (by decide) (by decide)⟩

theorem calculate_bm25_ids (log : ℚ → ℚ) (query : List String)
    (hits : List TokenizedDocument) (k1 b : ℚ) {i : Nat} :
    i ∈ (calculate_bm25 log query hits k1 b).map Prod.fst ↔
      i ∈ hits.map (·.id) := by
  rw [calculate_bm25]
  rw [List.Perm.mem_iff ((rankDesc_perm _).map Prod.fst)]
  rw [List.map_map]
  exact Iff.rfl

/-- C3: the candidate set scored by `bm25_search` is exactly the union of
the postings lists of the query's tokens: a document id appears in the
(full, untruncated) result exactly when it is in the postings list of at
least one query token. -/
theorem c3_bm25_candidate_set_is_postings_union (log : ℚ → ℚ)
    (docs : List TokenizedDocument) (idx : List (String × List Nat))
    (query : List String) (res : List (Nat × ℚ))
    (h : bm25_search log docs idx query none = .ok res) :
    ∀ i : Nat, i ∈ res.map Prod.fst ↔ ∃ w ∈ query, i ∈ indexLookup idx w := by
  intro i
  rw [bm25_search] at h
  split at h
  · cases h
  · rename_i hits hm
    split at h
    · rename_i he
      injection h with h
      subst h
      have hnil : hits = [] := List.isEmpty_iff.1 he
      subst hnil
      have hcand : candidateIds idx query = [] := ((hits_ids hm).1).symm.trans rfl
      have hpu : postingsUnion idx query = [] :=
        pyDedup_eq_nil_iff.1 hcand
      simp only [List.map_nil, List.not_mem_nil, false_iff]
      rintro ⟨w, hw, hi⟩
      exact absurd ((mem_postingsUnion query).2 ⟨w, hw, hi⟩) (by rw [hpu]; simp)
    · injection h with h
      subst h
      rw [pySlice, calculate_bm25_ids]
      rw [(hits_ids hm).1, candidateIds, mem_pyDedup]
      exact mem_postingsUnion query

/-! Concrete fixtures used by the witnesses below. -/

/-- A two-document sample collection. -/
def sampleDocs : List TokenizedDocument :=
  [⟨0, ["a"], ["b", "c"]⟩, ⟨1, ["b"], ["c", "d"]⟩]

/-- The inverted index of `sampleDocs` restricted to tokens a and b. -/
def sampleIndex : List (String × List Nat) :=
  [("a", [0]), ("b", [0, 1])]

/-- Three sample document language models; models 0 and 2 are tied. -/
def sampleModels : List LanguageModel :=
  [⟨some 0, fun w => if w = "b" then 2 else 0, 4, 1⟩,
    ⟨some 1, fun w => if w = "b" then 1 else 0, 4, 1⟩,
    ⟨some 2, fun w => if w = "b" then 2 else 0, 4, 1⟩]

/-- A sample collection model. -/
def sampleCm : LanguageModel :=
  ⟨none, fun w => if w = "b" then 2 else 0, 8, 3⟩

theorem sampleScores_eq :
    qlmScores sampleModels sampleCm ["b"] (3/4) false =
      .ok [(some 0, 7/16), (some 1, 1/4), (some 2, 7/16)] := by
  norm_num [qlmScores, modelsMap, buildDict, dictInsert, mapExcept,
    calculate_interpolated_sentence_probability, combineProbs, Except.map,
    calculate_word_probability, sampleModels, sampleCm]

theorem sampleBm25_eq :
    bm25_search (fun _ => 0) sampleDocs sampleIndex ["b"] none =
      .ok [(0, 0), (1, 0)] := by
  have hc : candidateIds sampleIndex ["b"] = [0, 1] := by decide
  rw [bm25_search, hc]
  norm_num [mapExcept, docLookup, docsMap, buildDict, dictInsert, assocLookup,
    List.find?, calculate_bm25, bm25Score, calculate_idf, calculate_tf,
    calculate_df, docTokens, docLength, avgdl, pyDedup, rankDesc,
    List.insertionSort, List.orderedInsert, scoreGe, pySlice, sampleDocs,
    sampleIndex]

/-- C1 witness: a three-model collection with a tie between models 0 and 2,
instantiated at `k = 2`. -/
theorem c1_qlm_search_sorted_stable_truncated_witness :
    (qlmScores sampleModels sampleCm ["b"] (3/4) false =
      .ok [(some 0, 7/16), (some 1, 1/4), (some 2, 7/16)]) ∧
    (0 : Int) ≤ 2 ∧
    (qlm_search sampleModels sampleCm ["b"] none (3/4) false =
        .ok (rankDesc [(some 0, 7/16), (some 1, 1/4), (some 2, 7/16)]) ∧
      (rankDesc [(some 0, 7/16), (some 1, 1/4), (some 2, 7/16)]).Sorted scoreGe ∧
      (∀ q : ℚ,
        (rankDesc [(some 0, 7/16), (some 1, 1/4), (some 2, 7/16)]).filter
            (fun y => y.2 = q) =
          [(some 0, 7/16), (some 1, 1/4), (some 2, 7/16)].filter
            (fun y => y.2 = q)) ∧
      qlm_search sampleModels sampleCm ["b"] (some 2) (3/4) false =
        .ok ((rankDesc [(some 0, 7/16), (some 1, 1/4), (some 2, 7/16)]).take
          (2 : Int).toNat)) :=
  ⟨sampleScores_eq, by decide,
    c1_qlm_search_sorted_stable_truncated sampleModels sampleCm ["b"] (3/4)
      false [(some 0, 7/16), (some 1, 1/4), (some 2, 7/16)] sampleScores_eq
      2 (by decide)⟩

/-- C3 witness: the two-document sample collection queried with `["b"]`. -/
theorem c3_bm25_candidate_set_is_postings_union_witness :
    (bm25_search (fun _ => 0) sampleDocs sampleIndex ["b"] none =
      .ok [(0, 0), (1, 0)]) ∧
    (∀ i : Nat, i ∈ ([((0 : Nat), (0 : ℚ)), (1, 0)].map Prod.fst) ↔
      ∃ w ∈ ["b"], i ∈ indexLookup sampleIndex w) :=
  ⟨sampleBm25_eq,
    c3_bm25_candidate_set_is_postings_union (fun _ => 0) sampleDocs
      sampleIndex ["b"] [(0, 0), (1, 0)] sampleBm25_eq⟩

/-- The three reference-fixture documents of the BM25 concrete scenario. -/
def refDoc0 : TokenizedDocument := ⟨0, ["a"], ["b", "c"]⟩

/-- Second reference-fixture document. -/
def refDoc1 : TokenizedDocument := ⟨1, ["b"], ["c", "d"]⟩

/-- Third reference-fixture document. -/
def refDoc2 : TokenizedDocument := ⟨2, ["c"], ["d", "e"]⟩

/-- C9: `calculate_bm25` on query `["b", "c", "e"]` over the three
reference-fixture documents with `k1 = 1.2`, `b = 0.75` returns exactly the
ranking `[(2, 1.0986122886681098), (0, 0.4054651081081644),
(1, 0.4054651081081644)]`, with the tie between documents 0 and 1 resolved
in that order.  The hypotheses pin the float logarithm at the three
rational points where the computation evaluates it, to the exact decimal
values the double-precision `math.log` produces there (`ln 3`, `ln 1.5`
and `ln 1`). -/
theorem c9_calculate_bm25_reference_ranking (log : ℚ → ℚ)
    (h3 : log 3 = 1.0986122886681098)
    (h32 : log (3/2) = 0.4054651081081644) (h1 : log 1 = 0) :
    calculate_bm25 log ["b", "c", "e"] [refDoc0, refDoc1, refDoc2]
      (1.2 : ℚ) (0.75 : ℚ) =
    [(2, 1.0986122886681098), (0, 0.4054651081081644),
      (1, 0.4054651081081644)] := by
  have hdfb : calculate_df "b" [refDoc0, refDoc1, refDoc2] = 2 := by decide
  have hdfc : calculate_df "c" [refDoc0, refDoc1, refDoc2] = 3 := by decide
  have hdfe : calculate_df "e" [refDoc0, refDoc1, refDoc2] = 1 := by decide
  have hib : calculate_idf log "b" [refDoc0, refDoc1, refDoc2] =
      0.4054651081081644 := by
    simp only [calculate_idf, hdfb]
    norm_num [h32]
  have hic : calculate_idf log "c" [refDoc0, refDoc1, refDoc2] = 0 := by
    simp only [calculate_idf, hdfc]
    norm_num [h1]
  have hie : calculate_idf log "e" [refDoc0, refDoc1, refDoc2] =
      1.0986122886681098 := by
    simp only [calculate_idf, hdfe]
    norm_num [h3]
  have hq : pyDedup ["b", "c", "e"] = ["b", "c", "e"] := by decide
  have htb0 : calculate_tf "b" refDoc0 = 1 := by decide
  have htc0 : calculate_tf "c" refDoc0 = 1 := by decide
  have hte0 : calculate_tf "e" refDoc0 = 0 := by decide
  have htb1 : calculate_tf "b" refDoc1 = 1 := by decide
  have htc1 : calculate_tf "c" refDoc1 = 1 := by decide
  have hte1 : calculate_tf "e" refDoc1 = 0 := by decide
  have htb2 : calculate_tf "b" refDoc2 = 0 := by decide
  have htc2 : calculate_tf "c" refDoc2 = 1 := by decide
  have hte2 : calculate_tf "e" refDoc2 = 1 := by decide
  have hs0 : bm25Score log ["b", "c", "e"] [refDoc0, refDoc1, refDoc2] refDoc0
      (1.2 : ℚ) (0.75 : ℚ) = 0.4054651081081644 := by
    simp only [bm25Score, hq, List.map_cons, List.map_nil, List.sum_cons,
      List.sum_nil, hib, hic, hie, htb0, htc0, hte0]
    norm_num [docLength, docTokens, avgdl, refDoc0, refDoc1, refDoc2]
  have hs1 : bm25Score log ["b", "c", "e"] [refDoc0, refDoc1, refDoc2] refDoc1
      (1.2 : ℚ) (0.75 : ℚ) = 0.4054651081081644 := by
    simp only [bm25Score, hq, List.map_cons, List.map_nil, List.sum_cons,
      List.sum_nil, hib, hic, hie, htb1, htc1, hte1]
    norm_num [docLength, docTokens, avgdl, refDoc0, refDoc1, refDoc2]
  have hs2 : bm25Score log ["b", "c", "e"] [refDoc0, refDoc1, refDoc2] refDoc2
      (1.2 : ℚ) (0.75 : ℚ) = 1.0986122886681098 := by
    simp only [bm25Score, hq, List.map_cons, List.map_nil, List.sum_cons,
      List.sum_nil, hib, hic, hie, htb2, htc2, hte2]
    norm_num [docLength, docTokens, avgdl, refDoc0, refDoc1, refDoc2]
  simp only [calculate_bm25, List.map_cons, List.map_nil, hs0, hs1, hs2]
  norm_num [rankDesc, List.insertionSort, List.orderedInsert, scoreGe,
    refDoc0, refDoc1, refDoc2]

/-- C9 witness: the theorem applied to a concrete logarithm function that
matches the double-precision `math.log` at the three required points. -/
theorem c9_calculate_bm25_reference_ranking_witness :
    ((fun q : ℚ => if q = 3 then (1.0986122886681098 : ℚ)
        else if q = 3/2 then 0.4054651081081644 else 0) 3 =
      1.0986122886681098) ∧
    calculate_bm25
        (fun q : ℚ => if q = 3 then (1.0986122886681098 : ℚ)
          else if q = 3/2 then 0.4054651081081644 else 0)
        ["b", "c", "e"] [refDoc0, refDoc1, refDoc2] (1.2 : ℚ) (0.75 : ℚ) =
      [(2, 1.0986122886681098), (0, 0.4054651081081644),
        (1, 0.4054651081081644)] :=
  ⟨by norm_num,
    c9_calculate_bm25_reference_ranking
      (fun q : ℚ => if q = 3 then (1.0986122886681098 : ℚ)
        else if q = 3/2 then 0.4054651081081644 else 0)
      (by norm_num) (by norm_num) (by norm_num)⟩

/-- C10: no document id appears more than once in the output of either
search: the candidates of `bm25_search` are deduplicated into a set before
scoring, and `qlm_search` is keyed on model id, so any successful result of
either search has pairwise-distinct ids; moreover with `topk = none` and
pairwise-distinct model ids, `qlm_search` returns exactly one (id, score)
pair per loaded document language model. -/
theorem c10_searches_have_no_duplicate_ids (log : ℚ → ℚ)
    (docs : List TokenizedDocument) (idx : List (String × List Nat))
    (query : List String) (topk : Option Int) (models : List LanguageModel)
    (cm : LanguageModel) (query2 : List String) (alpha : ℚ)
    (normalize : Bool) (topk2 : Option Int) (res1 : List (Nat × ℚ))
    (res2 res3 : List (Option Nat × ℚ))
    (h1 : bm25_search log docs idx query topk = .ok res1)
    (h2 : qlm_search models cm query2 topk2 alpha normalize = .ok res2)
    (h3 : qlm_search models cm query2 none alpha normalize = .ok res3)
    (hid : (models.map (·.id)).Nodup) :
    (res1.map Prod.fst).Nodup ∧ (res2.map Prod.fst).Nodup ∧
    (res3.map Prod.fst).Perm (models.map (·.id)) := by
  refine ⟨?_, ?_, ?_⟩
  · rw [bm25_search] at h1
    split at h1
    · cases h1
    · rename_i hits hm
      split at h1
      · injection h1 with h1
        subst h1
        simp
      · injection h1 with h1
        subst h1
        have hnd : ((calculate_bm25 log query hits 1.2 0.75).map Prod.fst).Nodup := by
          rw [calculate_bm25]
          apply (List.Perm.nodup_iff ((rankDesc_perm _).map Prod.fst)).2
          rw [List.map_map]
          show (hits.map (·.id)).Nodup
          rw [(hits_ids hm).1]
          exact pyDedup_nodup _
        exact List.Nodup.sublist ((pySlice_sublist _ topk).map Prod.fst) hnd
  · rw [qlm_search] at h2
    cases hs : qlmScores models cm query2 alpha normalize with
    | error e => rw [hs] at h2; cases h2
    | ok scores =>
      rw [hs] at h2
      simp only [Except.map, Except.ok.injEq] at h2
      subst h2
      have hnd : ((rankDesc scores).map Prod.fst).Nodup := by
        apply (List.Perm.nodup_iff ((rankDesc_perm _).map Prod.fst)).2
        rw [qlmScores_keys hs]
        exact buildDict_keys_nodup _
      exact List.Nodup.sublist ((pySlice_sublist _ topk2).map Prod.fst) hnd
  · rw [qlm_search] at h3
    cases hs : qlmScores models cm query2 alpha normalize with
    | error e => rw [hs] at h3; cases h3
    | ok scores =>
      rw [hs] at h3
      simp only [Except.map, Except.ok.injEq] at h3
      subst h3
      have hperm : ((pySlice (rankDesc scores) none).map Prod.fst).Perm
          (scores.map Prod.fst) := by
        rw [pySlice]
        exact (rankDesc_perm _).map Prod.fst
      have hkeys : scores.map Prod.fst = models.map (·.id) := by
        rw [qlmScores_keys hs, modelsMap, buildDict_eq_self, List.map_map]
        · rfl
        · rw [List.map_map]
          exact hid
      rw [hkeys] at hperm
      exact hperm

/-- C10 witness: both searches run on the concrete sample fixtures
(`topk = some 1` for BM25, `topk = some 2` and `none` for QLM). -/
theorem c10_searches_have_no_duplicate_ids_witness :
    (bm25_search (fun _ => 0) sampleDocs sampleIndex ["b"] none =
        .ok [(0, 0), (1, 0)] ∧
      (sampleModels.map (·.id)).Nodup) ∧
    (([((0 : Nat), (0 : ℚ)), (1, 0)].map Prod.fst).Nodup ∧
      (((rankDesc [(some 0, 7/16), (some 1, 1/4), (some 2, 7/16)]).take
          (2 : Int).toNat).map Prod.fst).Nodup ∧
      ((rankDesc [(some 0, 7/16), (some 1, 1/4), (some 2, 7/16)]).map
        Prod.fst).Perm (sampleModels.map (·.id))) := by
  have h2 : qlm_search sampleModels sampleCm ["b"] (some 2) (3/4) false =
      .ok ((rankDesc [(some 0, 7/16), (some 1, 1/4), (some 2, 7/16)]).take
        (2 : Int).toNat) := by
    rw [qlm_search_eq sampleScores_eq (some 2), pySlice_nonneg _ (by decide)]
  have h3 : qlm_search sampleModels sampleCm ["b"] none (3/4) false =
      .ok (rankDesc [(some 0, 7/16), (some 1, 1/4), (some 2, 7/16)]) := by
    rw [qlm_search_eq sampleScores_eq none]
    rfl
  exact ⟨⟨sampleBm25_eq, by decide⟩,
    c10_searches_have_no_duplicate_ids (fun _ => 0) sampleDocs sampleIndex
      ["b"] none sampleModels sampleCm ["b"] (3/4) false (some 2)
      [(0, 0), (1, 0)] _ _ sampleBm25_eq h2 h3 (by decide)⟩

end NewsRetrieval
